import Mathlib

/-!
# Verification of the whisper-daemon work-claim protocol and subtitle assembler

Shallow embedding of `whisper_daemon.py`:

* the subtitle assembler `convert_to_vtt` / `format_time` (Python floats are
  modelled exactly: a double is the rational number it denotes, and each
  arithmetic result is re-rounded to 53-bit precision with `roundDouble`);
* the job store operations `get_next_target` (claim) and `update_result`
  (commit), over a table modelled as a list of rows;
* the worker loop `daemon_loop` (one iteration, with the external fetch and
  transcription collaborators passed as `Except`-returning functions);
* a small-step transition system for N concurrent claimers, where the
  `FOR UPDATE SKIP LOCKED` row lock is held from selection to commit, and a
  transition system for the claim/commit lifecycle of many workers.
-/

attribute [local semireducible] Rat.mul Rat.add Rat.sub Rat.inv

set_option maxRecDepth 8000

deriving instance DecidableEq for Except

/-! ## Exact model of IEEE-754 binary64 rounding -/

/-- Fuel-based floor of the binary logarithm (`log2fuel f n = ⌊log₂ n⌋`
whenever `1 ≤ n < 2 ^ f`); structural in the fuel so that the kernel can
evaluate it. -/
def log2fuel : Nat → Nat → Nat
  | 0, _ => 0
  | f + 1, n => if 2 ≤ n then log2fuel f (n / 2) + 1 else 0

/-- `⌊log₂ n⌋` for positive `n` (fuel `n` suffices because `n < 2 ^ n`). -/
def natLog2 (n : Nat) : Nat := log2fuel n n

/-- `⌊log₂ q⌋` for a positive rational, computed from the numerator's and
denominator's logarithms and corrected by one explicit comparison. -/
def floorLog2Q (q : ℚ) : ℤ :=
  let e0 : ℤ := (natLog2 q.num.natAbs : ℤ) - (natLog2 q.den : ℤ)
  if (2 : ℚ) ^ e0 ≤ q then e0 else e0 - 1

/-- Round a rational to an integer, ties to even. -/
def rndHalfEven (q : ℚ) : ℤ :=
  if q - ⌊q⌋ < 1 / 2 then ⌊q⌋
  else if 1 / 2 < q - ⌊q⌋ then ⌊q⌋ + 1
  else if ⌊q⌋ % 2 = 0 then ⌊q⌋ else ⌊q⌋ + 1

/-- The IEEE-754 binary64 value nearest to the real number `q`
(round to nearest, ties to even): the 53-bit mantissa is obtained by scaling
`q` into `[2^52, 2^53)` and rounding.  Exponent overflow and subnormals are
not modelled; all quantities in this development stay far inside the normal
range. -/
def roundDouble (q : ℚ) : ℚ :=
  if q = 0 then 0
  else if 0 < q then
    ((rndHalfEven (q * 2 ^ ((52 : ℤ) - floorLog2Q q)) : ℚ)) * 2 ^ (floorLog2Q q - 52)
  else
    -((rndHalfEven (-q * 2 ^ ((52 : ℤ) - floorLog2Q (-q))) : ℚ)) * 2 ^ (floorLog2Q (-q) - 52)

/-! ## `format_time` (timestamp rendering) -/

/-- Python's zero-padding format `f"{n:0w}"` for a natural number. -/
def zeroPad (w : Nat) (n : Nat) : String :=
  ⟨List.replicate (w - (Nat.repr n).length) '0' ++ (Nat.repr n).data⟩

/-- Millisecond component of `format_time`: the source computes
`int((seconds % 1) * 1000)`.  For a non-negative double, `seconds % 1` is the
exact fractional part (`fmod` never rounds), the product with `1000` is
rounded to the nearest double, and `int` truncates. -/
def msNat (seconds : ℚ) : Nat := (⌊roundDouble ((seconds - ⌊seconds⌋) * 1000)⌋).toNat

/-- Whole-second component: `int(seconds)` (truncation; equals the floor on
the non-negative inputs this program produces). -/
def wholeSec (seconds : ℚ) : Nat := (⌊seconds⌋).toNat

/-- Hour component `s // 3600`. -/
def hourNat (seconds : ℚ) : Nat := wholeSec seconds / 3600

/-- Minute component `(s % 3600) // 60`. -/
def minNat (seconds : ℚ) : Nat := wholeSec seconds % 3600 / 60

/-- Second component `s % 60`. -/
def secNat (seconds : ℚ) : Nat := wholeSec seconds % 60

/-- `format_time` from the source, for the non-negative double inputs the
daemon feeds it:

```
def format_time(seconds):
    ms = int((seconds % 1) * 1000)
    s = int(seconds)
    h, m, s = s // 3600, (s % 3600) // 60, s % 60
    return f"{h:02}:{m:02}:{s:02}.{ms:03}"
```
-/
def format_time (seconds : ℚ) : String :=
  zeroPad 2 (hourNat seconds) ++ ":" ++ zeroPad 2 (minNat seconds) ++ ":"
    ++ zeroPad 2 (secNat seconds) ++ "." ++ zeroPad 3 (msNat seconds)

/-! ## `convert_to_vtt` (subtitle assembler) -/

/-- One timed utterance returned by the transcription collaborator.  The
`start`/`end` fields hold the exact rational value of the corresponding
double. -/
structure Segment where
  start : ℚ
  «end» : ℚ
  text : String
deriving DecidableEq

/-- The whitespace set of Python's `str.strip()`. -/
def pyIsSpace (c : Char) : Bool :=
  c = ' ' || c = '\t' || c = '\n' || c = '\r' || c = '\x0b' || c = '\x0c'

/-- Python's `str.strip()`. -/
def pyStrip (s : String) : String :=
  ⟨((s.data.dropWhile pyIsSpace).reverse.dropWhile pyIsSpace).reverse⟩

/-- Python's `str.replace("\n", " ")` (single-character replacement). -/
def pyReplaceNewlines (s : String) : String :=
  ⟨s.data.map fun c => if c = '\n' then ' ' else c⟩

/-- Python's `sep.join(lines)`. -/
def pyJoin (sep : String) : List String → String
  | [] => ""
  | [a] => a
  | a :: b :: rest => a ++ sep ++ pyJoin sep (b :: rest)

/-- The lines the source appends for the segments, with `i` the running
`enumerate` counter: for each segment, the cue number `i+1`, the timestamp
line, and the cleaned text followed by `"\n"`. -/
def vtt_lines : Nat → List Segment → List String
  | _, [] => []
  | i, seg :: rest =>
    Nat.repr (i + 1)
      :: (format_time seg.start ++ " --> " ++ format_time seg.«end»)
      :: (pyReplaceNewlines (pyStrip seg.text) ++ "\n")
      :: vtt_lines (i + 1) rest

/-- `convert_to_vtt` from the source: start from `["WEBVTT\n"]`, append three
lines per segment, and `"\n".join` the result. -/
def convert_to_vtt (segments : List Segment) : String :=
  pyJoin "\n" ("WEBVTT\n" :: vtt_lines 0 segments)

/-- Rendering of one cue exactly as the specification words it: the cue index
line, then `"<start> --> <end>"`, then the segment text with embedded newlines
replaced by single spaces and leading/trailing whitespace stripped. -/
def cue_render (idx : Nat) (seg : Segment) : String :=
  Nat.repr idx ++ "\n" ++ (format_time seg.start ++ " --> " ++ format_time seg.«end»)
    ++ "\n" ++ pyStrip (pyReplaceNewlines seg.text)

/-- The cues numbered consecutively from `idx`. -/
def cue_list : Nat → List Segment → List String
  | _, [] => []
  | idx, seg :: rest => cue_render idx seg :: cue_list (idx + 1) rest

/-- The document shape the specification describes: the fixed header line,
a blank line, then the cues numbered from 1 separated by blank lines (and the
final cue's terminating newline); for no segments, only the header. -/
def vtt_spec (segments : List Segment) : String :=
  if segments.isEmpty then "WEBVTT\n"
  else "WEBVTT\n" ++ "\n" ++ pyJoin "\n\n" (cue_list 1 segments) ++ "\n"

/-! ## The job store -/

/-- One row of `ims.meet_recording`, restricted to the four columns the
daemon reads or writes.  Statuses are the source's integers: 2 = pending,
10 = processing, 3 = done, -1 = failed. -/
structure Row where
  id : Nat
  status : Int
  web_vtt : Option String
  stacktrace : Option String
deriving DecidableEq

/-- The `WHERE status = 2` predicate of the claim query. -/
def pendingP (r : Row) : Bool := decide (r.status = 2)

/-- `UPDATE ims.meet_recording SET status = 10 WHERE id = rec_id` — the
claim's transition of the selected row to "processing". -/
def mark_processing (rec_id : Nat) (rows : List Row) : List Row :=
  rows.map fun r => if r.id = rec_id then { r with status := 10 } else r

/-- `update_result` from the source: one unconditional `UPDATE` that sets
`status`, `web_vtt` and `stacktrace` on every row matching the id (the caller
always supplies all three values; unsupplied Python keywords default to
`None`). -/
def update_result (rec_id : Nat) (status : Int) (webvtt : Option String)
    (error : Option String) (rows : List Row) : List Row :=
  rows.map fun r =>
    if r.id = rec_id then { r with status := status, web_vtt := webvtt, stacktrace := error }
    else r

/-- Failure of the store connection itself (`psycopg2.connect` raising). -/
inductive StoreError
  | connectionFailed
deriving DecidableEq

/-- `get_next_target` as a single caller observes it: on a healthy
connection, select the first pending row, mark it processing and return its
id, or return `none` leaving the table unchanged; a connection failure
propagates (there is no handler in the function). -/
def get_next_target (connOk : Bool) (rows : List Row) :
    Except StoreError (Option Nat × List Row) :=
  if connOk then
    match rows.find? pendingP with
    | some r => .ok (some r.id, mark_processing r.id rows)
    | none => .ok (none, rows)
  else .error .connectionFailed

/-! ## The worker loop -/

/-- A Python exception as the loop boundary sees it: traceback frames plus
the final exception line. -/
structure Exc where
  frames : List String
  msg : String
deriving DecidableEq

/-- Modelled from the spec: Python's `traceback.format_exc(limit=n)` — the
fixed heading, at most `n` stack frames, then the exception line.  The
function itself is standard-library code outside this repository; only the
shape (non-empty, frame count bounded by `limit`) matters here. -/
def format_exc (limit : Nat) (e : Exc) : String :=
  "Traceback (most recent call last):\n" ++ String.join (e.frames.take limit) ++ e.msg

/-- A fetched local copy of the source audio. -/
abbrev Audio := String

/-- `process_recording`: download the audio (external collaborator `fetch`,
covering `download_audio`/S3), transcribe it (external collaborator
`transcribe`, covering `whisperx.load_audio` and `model.transcribe`), then
assemble the subtitle document.  Any collaborator exception propagates. -/
def process_recording (fetch : Nat → Except Exc Audio)
    (transcribe : Audio → Except Exc (List Segment)) (rec_id : Nat) :
    Except Exc String :=
  (fetch rec_id).bind fun audio => (transcribe audio).map convert_to_vtt

/-- One iteration of `daemon_loop`: claim the next pending row (healthy
connection); if none, return to the sleep-and-retry path.  Otherwise run
`process_recording` and the success commit inside the `try` block
(`commitOk = false` makes the success commit itself raise `commitErr`), and
on any exception commit status -1 with `traceback.format_exc(limit=5)`.
The source tests `if not rec_id`, which by Python truthiness also treats a
claimed row whose id is 0 as "no work" (leaving it marked processing).
The iteration returning `.ok` is the loop continuing with the next claim. -/
def daemon_iteration (fetch : Nat → Except Exc Audio)
    (transcribe : Audio → Except Exc (List Segment))
    (commitOk : Bool) (commitErr : Exc) (rows : List Row) :
    Except Exc (Option Nat × List Row) :=
  match rows.find? pendingP with
  | none => .ok (none, rows)
  | some row =>
    let rows1 := mark_processing row.id rows
    if row.id = 0 then .ok (none, rows1)
    else
      match (process_recording fetch transcribe row.id).bind (fun vtt =>
          if commitOk then Except.ok (update_result row.id 3 (some vtt) none rows1)
          else Except.error commitErr) with
      | .ok rows2 => .ok (some row.id, rows2)
      | .error e =>
        .ok (some row.id, update_result row.id (-1) none (some (format_exc 5 e)) rows1)

/-- `daemon_loop` unrolled a given number of iterations; an uncaught
exception stops the run. -/
def daemon_run (fetch : Nat → Except Exc Audio)
    (transcribe : Audio → Except Exc (List Segment))
    (commitOk : Bool) (commitErr : Exc) : Nat → List Row → Except Exc (List Row)
  | 0, rows => .ok rows
  | k + 1, rows =>
    (daemon_iteration fetch transcribe commitOk commitErr rows).bind fun p =>
      daemon_run fetch transcribe commitOk commitErr k p.2

/-! ## N concurrent claimers (`FOR UPDATE SKIP LOCKED`)

Each claim transaction has two visible phases: the locking `SELECT`
(`FOR UPDATE SKIP LOCKED LIMIT 1`), which takes an exclusive row lock the
other transactions skip, and the `UPDATE ... SET status = 10` plus `COMMIT`,
which publishes the transition and releases the lock.  A caller holds a lock
on exactly the row it has selected and not yet committed, so the lock set is
read off the callers' states. -/

/-- The control state of one concurrent caller of `get_next_target`. -/
inductive CallerState
  | start
  | claimed (rec_id : Nat)
  | finished (result : Option Nat)
deriving DecidableEq

/-- The shared table together with the callers' control states. -/
structure ClaimSys where
  rows : List Row
  callers : List CallerState
deriving DecidableEq

/-- A row is locked while some in-flight transaction has selected it. -/
def rowLocked (callers : List CallerState) (rid : Nat) : Bool :=
  callers.any fun st => decide (st = .claimed rid)

/-- The locking select: the first pending row whose lock is not held by an
in-flight claim (`SKIP LOCKED` makes locked candidates invisible rather than
blocking). -/
def selectPending (rows : List Row) (callers : List CallerState) : Option Row :=
  rows.find? fun r => pendingP r && !rowLocked callers r.id

/-- Interleaved execution of the claim transactions. -/
inductive ClaimStep : ClaimSys → ClaimSys → Prop
  | select_found (s : ClaimSys) (i : Nat) (r : Row)
      (hc : s.callers.get? i = some .start)
      (hp : selectPending s.rows s.callers = some r) :
      ClaimStep s ⟨s.rows, s.callers.set i (.claimed r.id)⟩
  | select_none (s : ClaimSys) (i : Nat)
      (hc : s.callers.get? i = some .start)
      (hp : selectPending s.rows s.callers = none) :
      ClaimStep s ⟨s.rows, s.callers.set i (.finished none)⟩
  | update_and_commit (s : ClaimSys) (i : Nat) (rid : Nat)
      (hc : s.callers.get? i = some (.claimed rid)) :
      ClaimStep s ⟨mark_processing rid s.rows, s.callers.set i (.finished (some rid))⟩

/-- The ids of the rows the claim query ranges over. -/
def pendingIds (rows : List Row) : List Nat := (rows.filter pendingP).map Row.id

/-! ## The claim/commit lifecycle of many workers -/

/-- The control state of one worker process. -/
inductive WorkerState
  | idle
  | working (rec_id : Nat)
deriving DecidableEq

/-- The shared table together with the workers' control states. -/
structure DaemonSys where
  rows : List Row
  workers : List WorkerState
deriving DecidableEq

/-- The status stored for an id (the first matching row). -/
def statusOf (rows : List Row) (rid : Nat) : Option Int :=
  (rows.find? fun r => decide (r.id = rid)).map Row.status

/-- The row a claim call selects (whole-transaction view; no other claim is
in flight at the same instant in this coarser system). -/
def claimSelect (rows : List Row) : Option Row := rows.find? pendingP

/-- The operations the daemon performs against the store, as the protocol
uses them: an idle worker claims the next pending row (atomically marking it
processing), and a worker commits its claimed row exactly once, as done
(status 3, document stored) or failed (status -1, diagnostic stored). -/
inductive DaemonStep : DaemonSys → DaemonSys → Prop
  | claim (s : DaemonSys) (i : Nat) (r : Row)
      (hw : s.workers.get? i = some .idle)
      (hp : claimSelect s.rows = some r) :
      DaemonStep s ⟨mark_processing r.id s.rows, s.workers.set i (.working r.id)⟩
  | claim_none (s : DaemonSys) (i : Nat)
      (hw : s.workers.get? i = some .idle)
      (hp : claimSelect s.rows = none) :
      DaemonStep s s
  | commit_done (s : DaemonSys) (i : Nat) (rid : Nat) (doc : String)
      (hw : s.workers.get? i = some (.working rid)) :
      DaemonStep s ⟨update_result rid 3 (some doc) none s.rows, s.workers.set i .idle⟩
  | commit_failed (s : DaemonSys) (i : Nat) (rid : Nat) (diag : String)
      (hw : s.workers.get? i = some (.working rid)) :
      DaemonStep s ⟨update_result rid (-1) none (some diag) s.rows, s.workers.set i .idle⟩

/-! ## Invariants and concrete scenario constants -/

/-- A caller that neither holds nor has consumed the pending row. -/
def Passive (st : CallerState) : Prop := st = .start ∨ st = .finished none

/-- Exactly the caller at position `i` is in state `v`; everyone else is
passive. -/
def OneActive (cs : List CallerState) (v : CallerState) : Prop :=
  ∃ i, cs.get? i = some v ∧ ∀ j st, j ≠ i → cs.get? j = some st → Passive st

/-- The invariant of the claim race for a table whose only pending row has id
`X`: either nobody has selected it yet (and then nobody has finished at all),
or exactly one in-flight transaction holds its lock, or exactly one caller
has committed it. -/
def ClaimInv (X : Nat) (n : Nat) (s : ClaimSys) : Prop :=
  s.callers.length = n ∧
  ((pendingIds s.rows = [X] ∧ ∀ st ∈ s.callers, st = .start)
    ∨ (pendingIds s.rows = [X] ∧ OneActive s.callers (.claimed X))
    ∨ (pendingIds s.rows = [] ∧ OneActive s.callers (.finished (some X))))

/-- The invariant the worker protocol maintains: ids are unique, every
claimed-but-uncommitted id has status 10 (processing), and no two workers
hold the same id. -/
def DaemonInv (s : DaemonSys) : Prop :=
  (s.rows.map Row.id).Nodup ∧
  (∀ i rid, s.workers.get? i = some (.working rid) → statusOf s.rows rid = some 10) ∧
  (∀ i j rid, i ≠ j → s.workers.get? i = some (.working rid) →
    s.workers.get? j = some (.working rid) → False)

/-- The pending job of the end-to-end scenario. -/
def row42 : Row := ⟨42, 2, none, none⟩

/-- The binary64 value of the Python literal `1.2`
(`5404319552844595 / 2^52`, slightly below 6/5). -/
def end12 : ℚ := roundDouble (6 / 5)

/-- The single segment the transformation collaborator returns. -/
def seg_hi : Segment := ⟨0, end12, "hi\nthere"⟩

/-- Fetch collaborator returning a fixed audio handle. -/
def fetch42 : Nat → Except Exc Audio := fun _ => .ok "audio.m4a"

/-- Transformation collaborator returning the fixed single segment. -/
def transcribe_hi : Audio → Except Exc (List Segment) := fun _ => .ok [seg_hi]

/-- A store error for the commit-failure scenarios. -/
def storeErr : Exc := ⟨["  File \x22db.py\x22, line 1\n"], "OperationalError: down\n"⟩

/-- The document the code actually commits in the scenario. -/
def vtt_actual : String := "WEBVTT\n\n1\n00:00:00.000 --> 00:00:01.199\nhi there\n"

/-- The document the claim expects (`...01.200`). -/
def vtt_claimed : String := "WEBVTT\n\n1\n00:00:00.000 --> 00:00:01.200\nhi there\n"

/-- A double in `[0, 1)` whose fractional part times 1000 lies within half an
ulp below the integer 312: the rounded product reaches 312 while exact
truncation gives 311. -/
def adversarialQ : ℚ := (312 * 2 ^ 54 - 8) / (1000 * 2 ^ 54)

/-- A transformation-collaborator failure for the failure scenario. -/
def transformErr : Exc := ⟨["  File \x22whisper.py\x22, line 3\n"], "RuntimeError: decode failed\n"⟩

/-- Transformation collaborator that raises. -/
def transcribe_fail : Audio → Except Exc (List Segment) := fun _ => .error transformErr


/-! ## Helper lemmas -/

theorem get?_lt_length {α : Type} {l : List α} {i : Nat} {a : α} (h : l.get? i = some a) :
    i < l.length := by
  rcases Nat.lt_or_ge i l.length with h1 | h1
  · exact h1
  · rw [List.get?_eq_none.mpr h1] at h
    cases h

theorem selectPending_mem_pendingIds {rows : List Row} {cs : List CallerState} {r : Row}
    (h : selectPending rows cs = some r) : r.id ∈ pendingIds rows := by
  have hmem := List.mem_of_find?_eq_some h
  have hpred := List.find?_some h
  rw [Bool.and_eq_true] at hpred
  exact List.mem_map_of_mem Row.id (List.mem_filter.mpr ⟨hmem, hpred.1⟩)

theorem selectPending_unlocked {rows : List Row} {cs : List CallerState} {r : Row}
    (h : selectPending rows cs = some r) : rowLocked cs r.id = false := by
  have hpred := List.find?_some h
  rw [Bool.and_eq_true] at hpred
  have := hpred.2
  cases hb : rowLocked cs r.id
  · rfl
  · rw [hb] at this
    cases this

theorem pendingIds_singleton_mem {rows : List Row} {X : Nat} (h : pendingIds rows = [X]) :
    ∃ r ∈ rows, r.status = 2 ∧ r.id = X := by
  have hX : X ∈ pendingIds rows := by rw [h]; exact List.mem_singleton.mpr rfl
  rcases List.mem_map.mp hX with ⟨r, hrf, hid⟩
  rcases List.mem_filter.mp hrf with ⟨hmem, hp⟩
  exact ⟨r, hmem, of_decide_eq_true hp, hid⟩

theorem rowLocked_of_mem {cs : List CallerState} {rid : Nat}
    (h : CallerState.claimed rid ∈ cs) : rowLocked cs rid = true :=
  List.any_eq_true.mpr ⟨_, h, by simp⟩

theorem rowLocked_false_of_start {cs : List CallerState} (h : ∀ st ∈ cs, st = .start)
    (rid : Nat) : rowLocked cs rid = false := by
  rw [rowLocked]
  rw [List.any_eq_false]
  intro st hst
  rw [h st hst]
  simp

theorem pendingIds_cons (r : Row) (rest : List Row) :
    pendingIds (r :: rest) = if pendingP r then r.id :: pendingIds rest else pendingIds rest := by
  cases hb : pendingP r <;> simp [pendingIds, List.filter_cons, hb]

theorem mark_processing_cons (X : Nat) (r : Row) (rest : List Row) :
    mark_processing X (r :: rest)
      = (if r.id = X then { r with status := 10 } else r) :: mark_processing X rest := by
  simp [mark_processing]

theorem pendingP_mark_false {X : Nat} {r : Row} (hb : pendingP r = false ∨ r.id = X) :
    pendingP (if r.id = X then { r with status := 10 } else r) = false := by
  by_cases hid : r.id = X
  · rw [if_pos hid]; rfl
  · rw [if_neg hid]
    rcases hb with h | h
    · exact h
    · exact absurd h hid

theorem pendingIds_mark_nil {rows : List Row} {X : Nat} (h : pendingIds rows = []) :
    pendingIds (mark_processing X rows) = [] := by
  induction rows with
  | nil => rfl
  | cons r rest ih =>
    rw [pendingIds_cons] at h
    rw [mark_processing_cons, pendingIds_cons]
    cases hb : pendingP r
    · rw [hb] at h
      simp only [Bool.false_eq_true, if_false] at h
      rw [pendingP_mark_false (Or.inl hb)]
      simp only [Bool.false_eq_true, if_false]
      exact ih h
    · rw [hb] at h
      simp only [if_true] at h
      cases h

theorem pendingIds_mark_singleton {rows : List Row} {X : Nat} (h : pendingIds rows = [X]) :
    pendingIds (mark_processing X rows) = [] := by
  induction rows with
  | nil => cases h
  | cons r rest ih =>
    rw [pendingIds_cons] at h
    rw [mark_processing_cons, pendingIds_cons]
    cases hb : pendingP r
    · rw [hb] at h
      simp only [Bool.false_eq_true, if_false] at h
      rw [pendingP_mark_false (Or.inl hb)]
      simp only [Bool.false_eq_true, if_false]
      exact ih h
    · rw [hb] at h
      simp only [if_true] at h
      injection h with h1 h2
      rw [pendingP_mark_false (Or.inr h1)]
      simp only [Bool.false_eq_true, if_false]
      exact pendingIds_mark_nil h2

/-! ## C1: invariant of the concurrent claim system -/

theorem ClaimInv_init {X n : Nat} {rows0 : List Row} (hpend : pendingIds rows0 = [X]) :
    ClaimInv X n ⟨rows0, List.replicate n .start⟩ :=
  ⟨List.length_replicate n _, Or.inl ⟨hpend, fun _ hst => (List.mem_replicate.mp hst).2⟩⟩

theorem ClaimInv_step {X n : Nat} {s s' : ClaimSys} (hinv : ClaimInv X n s)
    (hstep : ClaimStep s s') : ClaimInv X n s' := by
  obtain ⟨hlen, hcase⟩ := hinv
  cases hstep with
  | select_found i r hc hp =>
    have hi : i < s.callers.length := get?_lt_length hc
    refine ⟨by rw [List.length_set]; exact hlen, ?_⟩
    rcases hcase with ⟨hpend, hstart⟩ | ⟨hpend, hact⟩ | ⟨hpend, hact⟩
    · have hid : r.id = X := by
        have hmm := selectPending_mem_pendingIds hp
        rw [hpend] at hmm
        exact List.mem_singleton.mp hmm
      refine Or.inr (Or.inl ⟨hpend, ⟨i, ?_, ?_⟩⟩)
      · rw [← hid]
        exact List.get?_set_eq_of_lt _ hi
      · intro j st hj hget
        rw [List.get?_set_ne _ _ (fun he => hj he.symm)] at hget
        exact Or.inl (hstart st (List.get?_mem hget))
    · exfalso
      obtain ⟨i0, hi0, _⟩ := hact
      have hlocked : rowLocked s.callers X = true := rowLocked_of_mem (List.get?_mem hi0)
      have hid : r.id = X := by
        have hmm := selectPending_mem_pendingIds hp
        rw [hpend] at hmm
        exact List.mem_singleton.mp hmm
      have hunlocked := selectPending_unlocked hp
      rw [hid, hlocked] at hunlocked
      cases hunlocked
    · exfalso
      have hmm := selectPending_mem_pendingIds hp
      rw [hpend] at hmm
      cases hmm
  | select_none i hc hp =>
    have hi : i < s.callers.length := get?_lt_length hc
    refine ⟨by rw [List.length_set]; exact hlen, ?_⟩
    rcases hcase with ⟨hpend, hstart⟩ | ⟨hpend, hact⟩ | ⟨hpend, hact⟩
    · exfalso
      obtain ⟨r, hmem, hst, hidX⟩ := pendingIds_singleton_mem hpend
      have hnone := List.find?_eq_none.mp hp r hmem
      apply hnone
      rw [Bool.and_eq_true]
      refine ⟨by rw [pendingP, hst]; rfl, ?_⟩
      rw [rowLocked_false_of_start hstart r.id]
      rfl
    · obtain ⟨i0, hi0, hothers⟩ := hact
      have hne : i ≠ i0 := by
        intro he
        rw [he, hi0] at hc
        cases hc
      refine Or.inr (Or.inl ⟨hpend, ⟨i0, ?_, ?_⟩⟩)
      · rw [List.get?_set_ne _ _ hne]
        exact hi0
      · intro j st hj hget
        by_cases hji : j = i
        · subst hji
          rw [List.get?_set_eq_of_lt _ hi] at hget
          exact Or.inr (Option.some.inj hget).symm
        · rw [List.get?_set_ne _ _ (fun he => hji he.symm)] at hget
          exact hothers j st hj hget
    · obtain ⟨i0, hi0, hothers⟩ := hact
      have hne : i ≠ i0 := by
        intro he
        rw [he, hi0] at hc
        cases hc
      refine Or.inr (Or.inr ⟨hpend, ⟨i0, ?_, ?_⟩⟩)
      · rw [List.get?_set_ne _ _ hne]
        exact hi0
      · intro j st hj hget
        by_cases hji : j = i
        · subst hji
          rw [List.get?_set_eq_of_lt _ hi] at hget
          exact Or.inr (Option.some.inj hget).symm
        · rw [List.get?_set_ne _ _ (fun he => hji he.symm)] at hget
          exact hothers j st hj hget
  | update_and_commit i rid hc =>
    have hi : i < s.callers.length := get?_lt_length hc
    refine ⟨by rw [List.length_set]; exact hlen, ?_⟩
    rcases hcase with ⟨hpend, hstart⟩ | ⟨hpend, hact⟩ | ⟨hpend, hact⟩
    · exfalso
      have := hstart _ (List.get?_mem hc)
      cases this
    · obtain ⟨i0, hi0, hothers⟩ := hact
      have hii : i = i0 := by
        by_contra hne
        rcases hothers i _ hne hc with h1 | h1 <;> cases h1
      subst hii
      have hrid : X = rid := CallerState.claimed.inj (Option.some.inj (hi0.symm.trans hc))
      subst hrid
      refine Or.inr (Or.inr ⟨pendingIds_mark_singleton hpend, ⟨i, ?_, ?_⟩⟩)
      · exact List.get?_set_eq_of_lt _ hi
      · intro j st hj hget
        rw [List.get?_set_ne _ _ (fun he => hj he.symm)] at hget
        exact hothers j st hj hget
    · exfalso
      obtain ⟨i0, hi0, hothers⟩ := hact
      have hne : i ≠ i0 := by
        intro he
        rw [he, hi0] at hc
        cases hc
      rcases hothers i _ hne hc with h1 | h1 <;> cases h1

theorem ClaimInv_reach {X n : Nat} {s0 s : ClaimSys} (h0 : ClaimInv X n s0)
    (h : Relation.ReflTransGen ClaimStep s0 s) : ClaimInv X n s := by
  induction h with
  | refl => exact h0
  | tail hsteps hstep ih => exact ClaimInv_step ih hstep

/-! ## C2: invariant of the worker lifecycle -/

theorem statusOf_mapIf (rows : List Row) (x y : Nat) (f : Row → Row)
    (hid : ∀ r, (f r).id = r.id) (c : Int) (hst : ∀ r, (f r).status = c) :
    statusOf (rows.map fun r => if r.id = x then f r else r) y
      = if y = x then (statusOf rows y).map (fun _ => c) else statusOf rows y := by
  induction rows with
  | nil => by_cases hyx : y = x <;> simp [statusOf, hyx]
  | cons r rest ih =>
    rw [List.map_cons]
    by_cases hry : r.id = y
    · have hhead : statusOf (r :: rest) y = some r.status := by
        rw [statusOf, List.find?_cons_of_pos _ (by rw [decide_eq_true_eq]; exact hry)]
        rfl
      by_cases hrx : r.id = x
      · have : (if r.id = x then f r else r) = f r := if_pos hrx
        rw [statusOf, this, List.find?_cons_of_pos _ (by rw [decide_eq_true_eq, hid]; exact hry)]
        have hyx : y = x := by rw [← hry, hrx]
        rw [if_pos hyx, hhead]
        simp [hst]
      · have hyx : ¬ y = x := by rw [← hry]; exact hrx
        have : (if r.id = x then f r else r) = r := if_neg hrx
        rw [statusOf, this, List.find?_cons_of_pos _ (by rw [decide_eq_true_eq]; exact hry)]
        rw [if_neg hyx, hhead]
        rfl
    · have hhead : statusOf (r :: rest) y = statusOf rest y := by
        rw [statusOf, List.find?_cons_of_neg _ (by rw [decide_eq_true_eq]; exact hry)]
        rfl
      have hid2 : ¬ ((if r.id = x then f r else r).id = y) := by
        by_cases hrx : r.id = x
        · rw [if_pos hrx, hid]; exact hry
        · rw [if_neg hrx]; exact hry
      rw [statusOf, List.find?_cons_of_neg _ (by rw [decide_eq_true_eq]; exact hid2)]
      rw [hhead]
      exact ih

theorem statusOf_mark (rows : List Row) (x y : Nat) :
    statusOf (mark_processing x rows) y
      = if y = x then (statusOf rows y).map (fun _ => (10 : Int)) else statusOf rows y := by
  have h := statusOf_mapIf rows x y (fun r => { r with status := 10 }) (fun _ => rfl)
    10 (fun _ => rfl)
  exact h

theorem statusOf_update (rows : List Row) (x y : Nat) (st : Int) (w e : Option String) :
    statusOf (update_result x st w e rows) y
      = if y = x then (statusOf rows y).map (fun _ => st) else statusOf rows y := by
  have h := statusOf_mapIf rows x y
    (fun r => { r with status := st, web_vtt := w, stacktrace := e }) (fun _ => rfl)
    st (fun _ => rfl)
  exact h

theorem ids_mapIf (rows : List Row) (x : Nat) (f : Row → Row)
    (hid : ∀ r, (f r).id = r.id) :
    (rows.map fun r => if r.id = x then f r else r).map Row.id = rows.map Row.id := by
  rw [List.map_map]
  apply List.map_congr_left
  intro r _
  by_cases hrx : r.id = x
  · simp [hrx, hid]
  · simp [hrx]

theorem ids_mark (rows : List Row) (x : Nat) :
    (mark_processing x rows).map Row.id = rows.map Row.id := by
  have h := ids_mapIf rows x (fun r => { r with status := 10 }) (fun _ => rfl)
  exact h

theorem ids_update (rows : List Row) (x : Nat) (st : Int) (w e : Option String) :
    (update_result x st w e rows).map Row.id = rows.map Row.id := by
  have h := ids_mapIf rows x
    (fun r => { r with status := st, web_vtt := w, stacktrace := e }) (fun _ => rfl)
  exact h

theorem statusOf_eq_of_mem_nodup {rows : List Row} {r : Row}
    (hmem : r ∈ rows) (hnd : (rows.map Row.id).Nodup) :
    statusOf rows r.id = some r.status := by
  induction rows with
  | nil => cases hmem
  | cons a rest ih =>
    rw [List.map_cons, List.nodup_cons] at hnd
    rcases List.mem_cons.mp hmem with he | hmem2
    · subst he
      rw [statusOf, List.find?_cons_of_pos _ (by rw [decide_eq_true_eq])]
      rfl
    · by_cases hax : a.id = r.id
      · exfalso
        apply hnd.1
        rw [hax]
        exact List.mem_map_of_mem Row.id hmem2
      · rw [statusOf, List.find?_cons_of_neg _ (by rw [decide_eq_true_eq]; exact hax)]
        exact ih hmem2 hnd.2

theorem claimSelect_spec {rows : List Row} {r : Row} (h : claimSelect rows = some r) :
    r ∈ rows ∧ r.status = 2 := by
  rw [claimSelect] at h
  have h2 := List.find?_some h
  exact ⟨List.mem_of_find?_eq_some h, of_decide_eq_true h2⟩

theorem DaemonInv_commit {s : DaemonSys} {i : Nat} {rid : Nat} (st : Int) (w e : Option String)
    (hinv : DaemonInv s) (hw : s.workers.get? i = some (.working rid)) :
    DaemonInv ⟨update_result rid st w e s.rows, s.workers.set i .idle⟩ := by
  obtain ⟨hnd, hw10, hdist⟩ := hinv
  have hi : i < s.workers.length := get?_lt_length hw
  refine ⟨by rw [ids_update]; exact hnd, ?_, ?_⟩
  · intro i2 rid2 h2
    by_cases hii : i2 = i
    · subst hii
      rw [List.get?_set_eq_of_lt _ hi] at h2
      cases Option.some.inj h2
    · rw [List.get?_set_ne _ _ (fun he => hii he.symm)] at h2
      have hold := hw10 i2 rid2 h2
      rw [statusOf_update]
      by_cases hrr : rid2 = rid
      · exfalso
        subst hrr
        exact hdist i2 i rid2 hii h2 hw
      · rw [if_neg hrr]
        exact hold
  · intro i2 j2 rid2 hij h2 h3
    by_cases hii : i2 = i
    · subst hii
      rw [List.get?_set_eq_of_lt _ hi] at h2
      cases Option.some.inj h2
    · by_cases hji : j2 = i
      · subst hji
        rw [List.get?_set_eq_of_lt _ hi] at h3
        cases Option.some.inj h3
      · rw [List.get?_set_ne _ _ (fun he => hii he.symm)] at h2
        rw [List.get?_set_ne _ _ (fun he => hji he.symm)] at h3
        exact hdist i2 j2 rid2 hij h2 h3

theorem DaemonInv_step {s s' : DaemonSys} (hinv : DaemonInv s) (hstep : DaemonStep s s') :
    DaemonInv s' := by
  cases hstep with
  | claim i r hw hp =>
    obtain ⟨hnd, hw10, hdist⟩ := hinv
    obtain ⟨hmem, hst2⟩ := claimSelect_spec hp
    have hi : i < s.workers.length := get?_lt_length hw
    have hnew10 : statusOf (mark_processing r.id s.rows) r.id = some 10 := by
      rw [statusOf_mark, if_pos rfl, statusOf_eq_of_mem_nodup hmem hnd]
      rfl
    have hold10 : ∀ rid, statusOf s.rows rid = some 10 →
        statusOf (mark_processing r.id s.rows) rid = some 10 := by
      intro rid h10
      rw [statusOf_mark]
      by_cases hrr : rid = r.id
      · exfalso
        rw [hrr, statusOf_eq_of_mem_nodup hmem hnd] at h10
        have := Option.some.inj h10
        rw [hst2] at this
        cases this
      · rw [if_neg hrr]
        exact h10
    refine ⟨by rw [ids_mark]; exact hnd, ?_, ?_⟩
    · intro i2 rid2 h2
      by_cases hii : i2 = i
      · subst hii
        rw [List.get?_set_eq_of_lt _ hi] at h2
        cases Option.some.inj h2
        exact hnew10
      · rw [List.get?_set_ne _ _ (fun he => hii he.symm)] at h2
        exact hold10 rid2 (hw10 i2 rid2 h2)
    · intro i2 j2 rid2 hij h2 h3
      by_cases hii : i2 = i
      · subst hii
        rw [List.get?_set_eq_of_lt _ hi] at h2
        cases Option.some.inj h2
        rw [List.get?_set_ne _ _ hij] at h3
        have h10 := hw10 j2 _ h3
        rw [statusOf_eq_of_mem_nodup hmem hnd] at h10
        have := Option.some.inj h10
        rw [hst2] at this
        cases this
      · by_cases hji : j2 = i
        · subst hji
          rw [List.get?_set_eq_of_lt _ hi] at h3
          cases Option.some.inj h3
          rw [List.get?_set_ne _ _ (fun he => hii he.symm)] at h2
          have h10 := hw10 i2 _ h2
          rw [statusOf_eq_of_mem_nodup hmem hnd] at h10
          have := Option.some.inj h10
          rw [hst2] at this
          cases this
        · rw [List.get?_set_ne _ _ (fun he => hii he.symm)] at h2
          rw [List.get?_set_ne _ _ (fun he => hji he.symm)] at h3
          exact hdist i2 j2 rid2 hij h2 h3
  | claim_none i hw hp => exact hinv
  | commit_done i rid doc hw => exact DaemonInv_commit 3 (some doc) none hinv hw
  | commit_failed i rid diag hw => exact DaemonInv_commit (-1) none (some diag) hinv hw

theorem DaemonInv_reach {s0 s : DaemonSys} (h0 : DaemonInv s0)
    (h : Relation.ReflTransGen DaemonStep s0 s) : DaemonInv s := by
  induction h with
  | refl => exact h0
  | tail hsteps hstep ih => exact DaemonInv_step ih hstep

theorem terminal_step {s s' : DaemonSys} {r : Nat} {t : Int} (hinv : DaemonInv s)
    (hstep : DaemonStep s s') (hterm : statusOf s.rows r = some t) (ht : t = 3 ∨ t = -1) :
    statusOf s'.rows r = some t := by
  cases hstep with
  | claim i row hw hp =>
    obtain ⟨hmem, hst2⟩ := claimSelect_spec hp
    rw [statusOf_mark]
    by_cases hrr : r = row.id
    · exfalso
      rw [hrr, statusOf_eq_of_mem_nodup hmem hinv.1] at hterm
      have := Option.some.inj hterm
      rw [hst2] at this
      rcases ht with h | h <;> omega
    · rw [if_neg hrr]
      exact hterm
  | claim_none i hw hp => exact hterm
  | commit_done i rid doc hw =>
    have h10 := hinv.2.1 i rid hw
    rw [statusOf_update]
    by_cases hrr : r = rid
    · exfalso
      rw [hrr, h10] at hterm
      have := Option.some.inj hterm
      rcases ht with h | h <;> omega
    · rw [if_neg hrr]
      exact hterm
  | commit_failed i rid diag hw =>
    have h10 := hinv.2.1 i rid hw
    rw [statusOf_update]
    by_cases hrr : r = rid
    · exfalso
      rw [hrr, h10] at hterm
      have := Option.some.inj hterm
      rcases ht with h | h <;> omega
    · rw [if_neg hrr]
      exact hterm

theorem terminal_reach {s1 s2 : DaemonSys} {r : Nat} {t : Int} (hinv : DaemonInv s1)
    (h : Relation.ReflTransGen DaemonStep s1 s2) (hterm : statusOf s1.rows r = some t)
    (ht : t = 3 ∨ t = -1) : statusOf s2.rows r = some t := by
  induction h with
  | refl => exact hterm
  | tail hsteps hstep ih => exact terminal_step (DaemonInv_reach hinv hsteps) hstep ih ht

theorem DaemonInv_init {rows0 : List Row} {m : Nat} (hnd : (rows0.map Row.id).Nodup) :
    DaemonInv ⟨rows0, List.replicate m .idle⟩ := by
  refine ⟨hnd, ?_, ?_⟩
  · intro i rid h
    have := (List.mem_replicate.mp (List.get?_mem h)).2
    cases this
  · intro i j rid hij h1 h2
    have := (List.mem_replicate.mp (List.get?_mem h1)).2
    cases this

/-- C1: against a table whose only pending row has id `X`, any complete
interleaved execution of `n ≥ 1` concurrent `get_next_target` transactions
(each one selecting with `FOR UPDATE SKIP LOCKED`, then updating and
committing) ends with exactly one caller returning `some X` and every other
caller returning `none`; in particular no two callers ever return the same
row. -/
theorem claim_exclusivity (rows0 : List Row) (n X : Nat) (sf : ClaimSys)
    (hpend : pendingIds rows0 = [X]) (hn : 1 ≤ n)
    (hexec : Relation.ReflTransGen ClaimStep ⟨rows0, List.replicate n .start⟩ sf)
    (hdone : ∀ st ∈ sf.callers, ∃ res, st = .finished res) :
    ∃ i, sf.callers.get? i = some (.finished (some X)) ∧
      ∀ j st, j ≠ i → sf.callers.get? j = some st → st = .finished none := by
  have hinv := ClaimInv_reach (ClaimInv_init hpend) hexec
  obtain ⟨hlen, hcase⟩ := hinv
  rcases hcase with ⟨_, hstart⟩ | ⟨_, hact⟩ | ⟨_, hact⟩
  · exfalso
    have hpos : 0 < sf.callers.length := by rw [hlen]; exact hn
    obtain ⟨st, hst⟩ : ∃ st, st ∈ sf.callers := by
      cases hcs : sf.callers with
      | nil => rw [hcs] at hpos; cases hpos
      | cons a l => exact ⟨a, hcs ▸ List.mem_cons_self a l⟩
    obtain ⟨res, hres⟩ := hdone st hst
    rw [hstart st hst] at hres
    cases hres
  · exfalso
    obtain ⟨i0, hi0, _⟩ := hact
    obtain ⟨res, hres⟩ := hdone _ (List.get?_mem hi0)
    cases hres
  · obtain ⟨i0, hi0, hothers⟩ := hact
    refine ⟨i0, hi0, ?_⟩
    intro j st hj hget
    obtain ⟨res, hres⟩ := hdone st (List.get?_mem hget)
    rcases hothers j st hj hget with h1 | h1
    · rw [h1] at hres
      cases hres
    · exact h1

/-- C2: in the worker protocol (claims and commits as the daemon performs
them), once a row's stored status is terminal (3 = done or -1 = failed) it
keeps that status at every later reachable state, and any row a later claim
call would select has status pending and a different id. -/
theorem terminal_never_reselected (rows0 : List Row) (m : Nat) (s1 s2 : DaemonSys)
    (r : Nat) (t : Int)
    (hnd : (rows0.map Row.id).Nodup)
    (h1 : Relation.ReflTransGen DaemonStep ⟨rows0, List.replicate m .idle⟩ s1)
    (hterm : statusOf s1.rows r = some t) (ht : t = 3 ∨ t = -1)
    (h2 : Relation.ReflTransGen DaemonStep s1 s2) :
    statusOf s2.rows r = some t ∧
      ∀ row : Row, claimSelect s2.rows = some row → row.status = 2 ∧ row.id ≠ r := by
  have hinv1 := DaemonInv_reach (DaemonInv_init hnd) h1
  have hinv2 := DaemonInv_reach hinv1 h2
  have hterm2 := terminal_reach hinv1 h2 hterm ht
  refine ⟨hterm2, ?_⟩
  intro row hsel
  obtain ⟨hmem, hst2⟩ := claimSelect_spec hsel
  refine ⟨hst2, ?_⟩
  intro hid
  rw [← hid, statusOf_eq_of_mem_nodup hmem hinv2.1] at hterm2
  have := Option.some.inj hterm2
  rw [hst2] at this
  rcases ht with h | h <;> omega

/-! ## C8: bounds on the rounded millisecond component -/

theorem log2fuel_bracket : ∀ f n, 1 ≤ n → n < 2 ^ f →
    2 ^ log2fuel f n ≤ n ∧ n < 2 ^ (log2fuel f n + 1) := by
  intro f
  induction f with
  | zero =>
    intro n h1 h2
    simp at h2
    omega
  | succ f ih =>
    intro n h1 h2
    rw [log2fuel]
    by_cases hn : 2 ≤ n
    · rw [if_pos hn]
      rw [Nat.pow_succ] at h2
      have hdiv2 : n / 2 < 2 ^ f := by omega
      obtain ⟨hl, hr⟩ := ih (n / 2) (by omega) hdiv2
      rw [Nat.pow_succ, Nat.pow_succ, Nat.pow_succ] at *
      constructor <;> omega
    · rw [if_neg hn]
      constructor
      · simpa using h1
      · have h3 : n < 2 := by omega
        simpa using h3

theorem natLog2_bracket {n : Nat} (h : 1 ≤ n) :
    2 ^ natLog2 n ≤ n ∧ n < 2 ^ (natLog2 n + 1) :=
  log2fuel_bracket n n h (Nat.lt_two_pow n)

theorem floorLog2Q_bracket {q : ℚ} (hq : 0 < q) :
    (2 : ℚ) ^ floorLog2Q q ≤ q ∧ q < 2 ^ (floorLog2Q q + 1) := by
  have hnum : 0 < q.num := Rat.num_pos.mpr hq
  set a := q.num.natAbs with ha
  set b := q.den with hb
  have ha1 : 1 ≤ a := by
    rw [ha]
    omega
  have hb1 : 1 ≤ b := q.den_pos
  have hqa : ((a : ℚ)) = (q.num : ℚ) := by
    rw [ha, Int.cast_natAbs]
    exact congrArg (fun z : ℤ => (z : ℚ)) (abs_of_nonneg hnum.le)
  have hq_eq : q = (a : ℚ) / (b : ℚ) := by
    rw [hqa, hb]
    exact (Rat.num_div_den q).symm
  obtain ⟨hal, har⟩ := natLog2_bracket ha1
  obtain ⟨hbl, hbr⟩ := natLog2_bracket hb1
  have haQ : ((2 : ℚ)) ^ (natLog2 a) ≤ (a : ℚ) ∧ ((a : ℚ)) < 2 ^ (natLog2 a + 1) := by
    constructor <;> exact_mod_cast ‹_›
  have hbQ : ((2 : ℚ)) ^ (natLog2 b) ≤ (b : ℚ) ∧ ((b : ℚ)) < 2 ^ (natLog2 b + 1) := by
    exact ⟨by exact_mod_cast hbl, by exact_mod_cast hbr⟩
  have haQ1 : ((2 : ℚ)) ^ (natLog2 a) ≤ (a : ℚ) := by exact_mod_cast hal
  have haQ2 : ((a : ℚ)) < 2 ^ (natLog2 a + 1) := by exact_mod_cast har
  have hbQ1 : ((2 : ℚ)) ^ (natLog2 b) ≤ (b : ℚ) := by exact_mod_cast hbl
  have hbQ2 : ((b : ℚ)) < 2 ^ (natLog2 b + 1) := by exact_mod_cast hbr
  have hb0 : (0 : ℚ) < (b : ℚ) := by exact_mod_cast hb1
  have ha0 : (0 : ℚ) < (a : ℚ) := by exact_mod_cast ha1
  have h2n : ∀ k : Nat, ((2 : ℚ)) ^ k = (2 : ℚ) ^ (k : ℤ) := fun k => (zpow_natCast 2 k).symm
  set E : ℤ := (natLog2 a : ℤ) - (natLog2 b : ℤ) with hE
  have hupper : q < 2 ^ (E + 1) := by
    rw [hq_eq]
    have hcross : (a : ℚ) * 2 ^ (natLog2 b) < 2 ^ (natLog2 a + 1) * (b : ℚ) := by
      calc (a : ℚ) * 2 ^ (natLog2 b) < 2 ^ (natLog2 a + 1) * 2 ^ (natLog2 b) := by
            exact mul_lt_mul_of_pos_right haQ2 (by positivity)
        _ ≤ 2 ^ (natLog2 a + 1) * (b : ℚ) := by
            exact mul_le_mul_of_nonneg_left hbQ1 (by positivity)
    have hdivlt : (a : ℚ) / (b : ℚ) < 2 ^ (natLog2 a + 1) / 2 ^ (natLog2 b) :=
      (div_lt_div_iff hb0 (by positivity)).mpr hcross
    refine lt_of_lt_of_le hdivlt (le_of_eq ?_)
    rw [h2n, h2n, ← zpow_sub₀ (by norm_num : (2 : ℚ) ≠ 0)]
    congr 1
    rw [hE]
    push_cast
    ring
  have hlower : (2 : ℚ) ^ (E - 1) < q := by
    rw [hq_eq]
    have hcross : (2 : ℚ) ^ (natLog2 a) * (b : ℚ) < (a : ℚ) * 2 ^ (natLog2 b + 1) := by
      calc (2 : ℚ) ^ (natLog2 a) * (b : ℚ) ≤ (a : ℚ) * (b : ℚ) := by
            exact mul_le_mul_of_nonneg_right haQ1 hb0.le
        _ < (a : ℚ) * 2 ^ (natLog2 b + 1) := by
            exact mul_lt_mul_of_pos_left hbQ2 ha0
    have hdivlt : (2 : ℚ) ^ (natLog2 a) / 2 ^ (natLog2 b + 1) < (a : ℚ) / (b : ℚ) :=
      (div_lt_div_iff (by positivity) hb0).mpr hcross
    refine lt_of_le_of_lt (le_of_eq ?_) hdivlt
    rw [h2n, h2n, ← zpow_sub₀ (by norm_num : (2 : ℚ) ≠ 0)]
    congr 1
    rw [hE]
    push_cast
    ring
  have hfl : floorLog2Q q = if (2 : ℚ) ^ E ≤ q then E else E - 1 := rfl
  rw [hfl]
  by_cases hcase : (2 : ℚ) ^ E ≤ q
  · rw [if_pos hcase]
    exact ⟨hcase, hupper⟩
  · rw [if_neg hcase]
    constructor
    · exact hlower.le
    · rw [sub_add_cancel]
      exact lt_of_not_le hcase

theorem rndHalfEven_le (q : ℚ) : (rndHalfEven q : ℚ) ≤ q + 1 / 2 := by
  have hfl := Int.floor_le q
  rw [rndHalfEven]
  split_ifs with h1 h2 h3
  · linarith
  · push_cast
    linarith
  · linarith
  · push_cast
    linarith

theorem rndHalfEven_nonneg {q : ℚ} (hq : 0 ≤ q) : 0 ≤ rndHalfEven q := by
  have hfl : 0 ≤ ⌊q⌋ := Int.floor_nonneg.mpr hq
  rw [rndHalfEven]
  split_ifs <;> omega

theorem roundDouble_nonneg {q : ℚ} (hq : 0 ≤ q) : 0 ≤ roundDouble q := by
  rw [roundDouble]
  by_cases h0 : q = 0
  · rw [if_pos h0]
  · rw [if_neg h0]
    have hpos : 0 < q := lt_of_le_of_ne hq (fun he => h0 he.symm)
    rw [if_pos hpos]
    have hrnd : 0 ≤ rndHalfEven (q * 2 ^ ((52 : ℤ) - floorLog2Q q)) :=
      rndHalfEven_nonneg (by positivity)
    have hrndQ : (0 : ℚ) ≤ (rndHalfEven (q * 2 ^ ((52 : ℤ) - floorLog2Q q)) : ℚ) := by
      exact_mod_cast hrnd
    positivity

theorem roundDouble_le {q : ℚ} (hq : 0 < q) :
    roundDouble q ≤ q * (1 + (2 : ℚ) ^ (-(53 : ℤ))) := by
  rw [roundDouble, if_neg (ne_of_gt hq), if_pos hq]
  set e := floorLog2Q q with he
  have hbr := floorLog2Q_bracket hq
  have hrnd := rndHalfEven_le (q * 2 ^ ((52 : ℤ) - e))
  have hmul : (rndHalfEven (q * 2 ^ ((52 : ℤ) - e)) : ℚ) * 2 ^ (e - 52)
      ≤ (q * 2 ^ ((52 : ℤ) - e) + 1 / 2) * 2 ^ (e - 52) :=
    mul_le_mul_of_nonneg_right hrnd (by positivity)
  refine le_trans hmul ?_
  have hexp : (2 : ℚ) ^ ((52 : ℤ) - e) * 2 ^ (e - 52) = 1 := by
    rw [← zpow_add₀ (by norm_num : (2 : ℚ) ≠ 0)]
    norm_num
  have hhalf : (1 : ℚ) / 2 * 2 ^ (e - 52) = 2 ^ (e - 53) := by
    rw [show (1 : ℚ) / 2 = 2 ^ (-(1 : ℤ)) by norm_num]
    rw [← zpow_add₀ (by norm_num : (2 : ℚ) ≠ 0)]
    congr 1
    ring
  have hLHS : (q * 2 ^ ((52 : ℤ) - e) + 1 / 2) * 2 ^ (e - 52) = q + 2 ^ (e - 53) := by
    rw [add_mul, mul_assoc, hexp, mul_one, hhalf]
  rw [hLHS]
  have hbound : (2 : ℚ) ^ (e - 53) ≤ q * 2 ^ (-(53 : ℤ)) := by
    rw [show e - 53 = e + (-(53 : ℤ)) by ring]
    rw [zpow_add₀ (by norm_num : (2 : ℚ) ≠ 0)]
    exact mul_le_mul_of_nonneg_right hbr.1 (by positivity)
  nlinarith [hbound]

theorem msNat_le_999 {s : ℚ} (hfrac : s - ⌊s⌋ ≤ 1 - (2 : ℚ) ^ (-(53 : ℤ))) :
    msNat s ≤ 999 := by
  rw [msNat]
  have hfr0 : (0 : ℚ) ≤ s - ⌊s⌋ := sub_nonneg.mpr (Int.floor_le s)
  set p := (s - ⌊s⌋) * 1000 with hp
  have hp0 : 0 ≤ p := by positivity
  have hub : roundDouble p < 1000 := by
    rcases eq_or_lt_of_le hp0 with heq | hlt
    · rw [roundDouble, if_pos heq.symm]
      norm_num
    · have h1 := roundDouble_le hlt
      have h2 : p ≤ 1000 * (1 - 2 ^ (-(53 : ℤ))) := by
        rw [hp]
        nlinarith [hfrac]
      have ht0 : (0 : ℚ) < 2 ^ (-(53 : ℤ)) := by positivity
      have ht1 : (2 : ℚ) ^ (-(53 : ℤ)) < 1 := by
        rw [show (-(53 : ℤ)) = -(53 : ℕ) by norm_num, zpow_neg, zpow_natCast]
        rw [inv_lt_one_iff₀]
        right
        norm_num
      nlinarith [h1, h2, ht0, ht1]
  have hfloor : ⌊roundDouble p⌋ ≤ 999 := by
    have h1000 : ⌊roundDouble p⌋ < 1000 := Int.floor_lt.mpr (by exact_mod_cast hub)
    omega
  omega

theorem zeroPad2_length : ∀ n, n < 100 → (zeroPad 2 n).length = 2 := by decide

theorem zeroPad3_length : ∀ n, n < 1000 → (zeroPad 3 n).length = 3 := by decide

/-! ## C7: the assembled document matches the specified cue layout -/

theorem strAppend_assoc (a b c : String) : a ++ b ++ c = a ++ (b ++ c) := by
  cases a
  cases b
  cases c
  apply congrArg String.mk
  exact List.append_assoc _ _ _

theorem nl_nl_append (X : String) : "\n" ++ ("\n" ++ X) = "\n\n" ++ X := by
  rw [← strAppend_assoc]
  rfl

theorem dropWhile_map_comm (f : Char → Char) (p : Char → Bool)
    (h : ∀ c, p (f c) = p c) :
    ∀ l : List Char, (l.map f).dropWhile p = (l.dropWhile p).map f := by
  intro l
  induction l with
  | nil => rfl
  | cons c rest ih =>
    rw [List.map_cons, List.dropWhile_cons, List.dropWhile_cons, h]
    cases hc : p c
    · simp only [Bool.false_eq_true, if_false, List.map_cons]
    · simp only [if_true]
      exact ih

theorem pyIsSpace_replace (c : Char) :
    pyIsSpace (if c = '\n' then ' ' else c) = pyIsSpace c := by
  by_cases hc : c = '\n'
  · rw [if_pos hc, hc]
    rfl
  · rw [if_neg hc]

theorem strip_replace_comm_list (l : List Char) :
    (((l.dropWhile pyIsSpace).reverse.dropWhile pyIsSpace).reverse.map
        fun c => if c = '\n' then ' ' else c)
      = (((l.map fun c => if c = '\n' then ' ' else c).dropWhile
          pyIsSpace).reverse.dropWhile pyIsSpace).reverse := by
  rw [dropWhile_map_comm _ _ pyIsSpace_replace l, ← List.map_reverse,
    dropWhile_map_comm _ _ pyIsSpace_replace, ← List.map_reverse]

/-- Stripping then collapsing newlines (the source's order) gives the same
text as collapsing newlines then stripping (the specification's order),
because the replacement maps whitespace to whitespace. -/
theorem strip_replace_comm (s : String) :
    pyReplaceNewlines (pyStrip s) = pyStrip (pyReplaceNewlines s) :=
  congrArg String.mk (strip_replace_comm_list s.data)

theorem vtt_join : ∀ (segs : List Segment) (i : Nat), segs ≠ [] →
    pyJoin "\n" (vtt_lines i segs) = pyJoin "\n\n" (cue_list (i + 1) segs) ++ "\n" := by
  intro segs
  induction segs with
  | nil => intro i h; exact absurd rfl h
  | cons seg rest ih =>
    intro i _
    cases rest with
    | nil =>
      simp only [vtt_lines, cue_list, cue_render, pyJoin, strip_replace_comm,
        strAppend_assoc]
    | cons seg2 rest2 =>
      have htail := ih (i + 1) (by simp)
      simp only [vtt_lines, cue_list, cue_render, pyJoin, strip_replace_comm,
        strAppend_assoc] at htail ⊢
      rw [htail]
      simp only [strAppend_assoc, nl_nl_append]

theorem cue_list_length : ∀ (idx : Nat) (l : List Segment),
    (cue_list idx l).length = l.length := by
  intro idx l
  induction l generalizing idx with
  | nil => rfl
  | cons a rest ih => rw [cue_list, List.length_cons, List.length_cons, ih]

/-- C7: for every segment list, the assembled document equals the layout the
specification describes — the fixed `WEBVTT` header line, a blank line, then
the cues in input order numbered from 1, each rendered as index line,
`"<start> --> <end>"` line, and the text with newlines replaced by spaces and
ends stripped, with cues separated by blank lines (empty input yields only
the header) — and the document carries exactly one cue per segment. -/
theorem convert_to_vtt_matches_spec (segments : List Segment) :
    convert_to_vtt segments = vtt_spec segments
      ∧ (cue_list 1 segments).length = segments.length := by
  constructor
  · cases segments with
    | nil => rfl
    | cons seg rest =>
      rw [convert_to_vtt, vtt_spec, if_neg (by simp)]
      have hjoin := vtt_join (seg :: rest) 0 (by simp)
      rw [show (0 : Nat) + 1 = 1 from rfl] at hjoin
      rw [show vtt_lines 0 (seg :: rest)
          = Nat.repr 1 :: (format_time seg.start ++ " --> " ++ format_time seg.«end»)
            :: (pyReplaceNewlines (pyStrip seg.text) ++ "\n") :: vtt_lines 1 rest from rfl]
      rw [pyJoin]
      rw [show Nat.repr 1 :: (format_time seg.start ++ " --> " ++ format_time seg.«end»)
            :: (pyReplaceNewlines (pyStrip seg.text) ++ "\n") :: vtt_lines 1 rest
          = vtt_lines 0 (seg :: rest) from rfl]
      rw [hjoin]
      simp only [strAppend_assoc]
  · exact cue_list_length 1 segments

theorem update_result_mem {rows : List Row} {rid : Nat} {st : Int} {w e : Option String}
    {r : Row} (h : r ∈ update_result rid st w e rows) (hid : r.id = rid) :
    r.status = st ∧ r.web_vtt = w ∧ r.stacktrace = e := by
  rcases List.mem_map.mp h with ⟨r0, hr0, hgr⟩
  by_cases h0 : r0.id = rid
  · rw [if_pos h0] at hgr
    rw [← hgr]
    exact ⟨rfl, rfl, rfl⟩
  · rw [if_neg h0] at hgr
    rw [← hgr] at hid
    exact absurd hid h0

/-- C3: the two commits the daemon issues write mutually exclusive outcome
fields — the success commit (status 3) stores the document and nulls the
diagnostic, the failure commit (status -1) stores the diagnostic and nulls
the document — so neither commit leaves both fields set on the committed
row. -/
theorem commit_outcomes_exclusive (rows : List Row) (rec_id : Nat) (doc diag : String) :
    (∀ r ∈ update_result rec_id 3 (some doc) none rows,
      r.id = rec_id → r.status = 3 ∧ r.web_vtt = some doc ∧ r.stacktrace = none) ∧
    (∀ r ∈ update_result rec_id (-1) none (some diag) rows,
      r.id = rec_id → r.status = -1 ∧ r.web_vtt = none ∧ r.stacktrace = some diag) ∧
    (∀ r ∈ update_result rec_id 3 (some doc) none rows,
      r.id = rec_id → ¬(r.web_vtt.isSome ∧ r.stacktrace.isSome)) ∧
    (∀ r ∈ update_result rec_id (-1) none (some diag) rows,
      r.id = rec_id → ¬(r.web_vtt.isSome ∧ r.stacktrace.isSome)) := by
  refine ⟨?_, ?_, ?_, ?_⟩
  · intro r hr hid
    exact update_result_mem hr hid
  · intro r hr hid
    exact update_result_mem hr hid
  · intro r hr hid
    obtain ⟨_, _, h3⟩ := update_result_mem hr hid
    intro hboth
    rw [h3] at hboth
    cases hboth.2
  · intro r hr hid
    obtain ⟨_, h2, _⟩ := update_result_mem hr hid
    intro hboth
    rw [h2] at hboth
    cases hboth.1

/-- C4: the claim call distinguishes "no work" from store failure — with a
healthy connection and no pending row it returns `none` with the table
unchanged, while a store-connection failure propagates as an error instead
of returning `none`. -/
theorem claim_no_work_vs_store_failure (rows : List Row) :
    ((∀ r ∈ rows, r.status ≠ 2) → get_next_target true rows = .ok (none, rows)) ∧
    get_next_target false rows = .error .connectionFailed := by
  constructor
  · intro h
    have hf : rows.find? pendingP = none := by
      apply List.find?_eq_none.mpr
      intro r hr
      rw [pendingP]
      simp only [decide_eq_true_eq]
      exact h r hr
    rw [get_next_target, if_pos rfl, hf]
  · rfl

/-- C5: if processing a claimed row raises anywhere in fetch / transcribe /
assemble, the loop boundary catches it, commits status -1 with the non-empty
`format_exc(limit=5)` diagnostic on that row, and the loop goes on to run
further iterations rather than terminating. -/
theorem worker_failure_contained (fetch : Nat → Except Exc Audio)
    (transcribe : Audio → Except Exc (List Segment)) (commitOk : Bool) (commitErr : Exc)
    (rows : List Row) (row : Row) (e : Exc) (k : Nat)
    (hfind : rows.find? pendingP = some row) (hid0 : row.id ≠ 0)
    (hproc : process_recording fetch transcribe row.id = .error e) :
    daemon_iteration fetch transcribe commitOk commitErr rows
        = .ok (some row.id,
            update_result row.id (-1) none (some (format_exc 5 e))
              (mark_processing row.id rows))
      ∧ format_exc 5 e ≠ ""
      ∧ (∀ r ∈ update_result row.id (-1) none (some (format_exc 5 e))
            (mark_processing row.id rows),
          r.id = row.id → r.status = -1 ∧ r.stacktrace = some (format_exc 5 e))
      ∧ (e.frames.take 5).length ≤ 5
      ∧ daemon_run fetch transcribe commitOk commitErr (k + 1) rows
          = daemon_run fetch transcribe commitOk commitErr k
              (update_result row.id (-1) none (some (format_exc 5 e))
                (mark_processing row.id rows)) := by
  have hit : daemon_iteration fetch transcribe commitOk commitErr rows
      = .ok (some row.id,
          update_result row.id (-1) none (some (format_exc 5 e))
            (mark_processing row.id rows)) := by
    rw [daemon_iteration, hfind]
    simp only [if_neg hid0, hproc, Except.bind]
  refine ⟨hit, ?_, ?_, ?_, ?_⟩
  · intro hcontra
    have hdata := congrArg String.data hcontra
    rw [format_exc] at hdata
    simp at hdata
  · intro r hr hid
    obtain ⟨h1, _, h3⟩ := update_result_mem hr hid
    exact ⟨h1, h3⟩
  · rw [List.length_take]
    exact min_le_left _ _
  · rw [daemon_run, hit]
    rfl

/-- C9: `update_result` is unconditional and unguarded — with no matching id
it leaves every row (and the row count) unchanged, and any matching row is
overwritten with the given status and outcome fields regardless of its
current status, terminal statuses included. -/
theorem update_result_unconditional (rows : List Row) (rec_id : Nat) (st : Int)
    (w e : Option String) :
    ((∀ r ∈ rows, r.id ≠ rec_id) → update_result rec_id st w e rows = rows) ∧
    (update_result rec_id st w e rows).length = rows.length ∧
    (∀ r ∈ rows, r.id = rec_id →
      { r with status := st, web_vtt := w, stacktrace := e }
        ∈ update_result rec_id st w e rows) ∧
    (∀ r ∈ rows, r.id ≠ rec_id → r ∈ update_result rec_id st w e rows) := by
  refine ⟨?_, List.length_map _ _, ?_, ?_⟩
  · intro h
    have hcongr : ∀ r ∈ rows,
        (if r.id = rec_id
          then { r with status := st, web_vtt := w, stacktrace := e } else r) = id r :=
      fun r hr => if_neg (h r hr)
    calc update_result rec_id st w e rows = rows.map id := List.map_congr_left hcongr
      _ = rows := List.map_id rows
  · intro r hr hid
    have h2 := List.mem_map_of_mem
      (fun r => if r.id = rec_id
        then { r with status := st, web_vtt := w, stacktrace := e } else r) hr
    simp only [if_pos hid] at h2
    exact h2
  · intro r hr hid
    have h2 := List.mem_map_of_mem
      (fun r => if r.id = rec_id
        then { r with status := st, web_vtt := w, stacktrace := e } else r) hr
    simp only [if_neg hid] at h2
    exact h2

/-- C10: when processing succeeded but the success commit itself raises, the
`except` branch converts the store error into a failure commit for the same
job — the iteration still returns to the loop (no propagation) and the row
ends failed with the store error's `format_exc` diagnostic and no
document. -/
theorem success_commit_failure_converted (fetch : Nat → Except Exc Audio)
    (transcribe : Audio → Except Exc (List Segment)) (commitErr : Exc)
    (rows : List Row) (row : Row) (vtt : String)
    (hfind : rows.find? pendingP = some row) (hid0 : row.id ≠ 0)
    (hproc : process_recording fetch transcribe row.id = .ok vtt) :
    daemon_iteration fetch transcribe false commitErr rows
        = .ok (some row.id,
            update_result row.id (-1) none (some (format_exc 5 commitErr))
              (mark_processing row.id rows))
      ∧ (∀ r ∈ update_result row.id (-1) none (some (format_exc 5 commitErr))
            (mark_processing row.id rows),
          r.id = row.id →
            r.status = -1 ∧ r.stacktrace = some (format_exc 5 commitErr)
              ∧ r.web_vtt = none) := by
  constructor
  · rw [daemon_iteration, hfind]
    simp only [if_neg hid0, hproc, Except.bind, Bool.false_eq_true, if_false]
  · intro r hr hid
    obtain ⟨h1, h2, h3⟩ := update_result_mem hr hid
    exact ⟨h1, h3, h2⟩

/-! ## C6 and C8 theorems -/

/-- C6 counterexample: on the claimed scenario the iteration commits status 3
for job 42, but the stored document reads `00:00:00.000 --> 00:00:01.199`,
not the claimed `...01.200` (with or without the final newline): the double
nearest 1.2 is below 1.2 and its milliseconds truncate to 199. -/
theorem scenario_counterexample :
    daemon_iteration fetch42 transcribe_hi true storeErr [row42]
        = .ok (some 42, [⟨42, 3, some vtt_actual, none⟩])
      ∧ vtt_actual ≠ vtt_claimed
      ∧ vtt_actual ≠ "WEBVTT\n\n1\n00:00:00.000 --> 00:00:01.200\nhi there" := by
  refine ⟨by decide, by decide, by decide⟩

/-- C6 amended: the scenario claims job 42 (transitioning it to processing,
status 10) and commits status 3 with the document consisting of the header
line, a blank line, `1`, `00:00:00.000 --> 00:00:01.199`, `hi there`, and the
final cue's terminating newline. -/
theorem scenario_amended :
    get_next_target true [row42] = .ok (some 42, [⟨42, 10, none, none⟩])
      ∧ daemon_iteration fetch42 transcribe_hi true storeErr [row42]
        = .ok (some 42, [⟨42, 3, some vtt_actual, none⟩])
      ∧ vtt_actual
        = "WEBVTT" ++ "\n" ++ "" ++ "\n" ++ "1" ++ "\n"
            ++ "00:00:00.000 --> 00:00:01.199" ++ "\n" ++ "hi there" ++ "\n" := by
  refine ⟨by decide, by decide, by decide⟩

/-! ## C8: the millisecond component under double arithmetic -/

/-- C8 counterexample: `adversarialQ` is a binary64 value (a fixed point of
rounding), truncating its fractional part times 1000 yields 311, yet
`format_time` renders `00:00:00.312` — the double multiplication rounds up
across the integer boundary before `int` truncates, so the milliseconds are
not always the truncation of the exact product. -/
theorem format_time_truncation_counterexample :
    roundDouble adversarialQ = adversarialQ
      ∧ ⌊(adversarialQ - ⌊adversarialQ⌋) * 1000⌋ = 311
      ∧ format_time adversarialQ = "00:00:00.312"
      ∧ format_time adversarialQ
          ≠ "00:00:00." ++ zeroPad 3 (⌊(adversarialQ - ⌊adversarialQ⌋) * 1000⌋).toNat := by
  refine ⟨by decide, by decide, by decide, by decide⟩

/-- C8 amended: `format_time` renders zero-padded `HH:MM:SS.mmm` with
unbounded hours and two-digit minutes and seconds; the milliseconds are
`int((seconds % 1) * 1000)` where the product is computed in double
precision, which equals truncating the exact product except when that
product falls within half an ulp below an integer; the result still lies in
[0, 999] for every double input (whose fractional part is at most
`1 - 2^-53`), and the three cited example timestamps hold as stated. -/
theorem format_time_amended :
    format_time 0 = "00:00:00.000"
      ∧ format_time (7323 / 2) = "01:01:01.500"
      ∧ format_time (roundDouble (59999 / 1000)) = "00:00:59.999"
      ∧ ∀ s : ℚ, 0 ≤ s → s - ⌊s⌋ ≤ 1 - (2 : ℚ) ^ (-(53 : ℤ)) →
          format_time s
              = zeroPad 2 (hourNat s) ++ ":" ++ zeroPad 2 (minNat s) ++ ":"
                ++ zeroPad 2 (secNat s) ++ "." ++ zeroPad 3 (msNat s)
            ∧ minNat s < 60 ∧ secNat s < 60 ∧ msNat s ≤ 999
            ∧ (zeroPad 2 (minNat s)).length = 2
            ∧ (zeroPad 2 (secNat s)).length = 2
            ∧ (zeroPad 3 (msNat s)).length = 3 := by
  refine ⟨by decide, by decide, by decide, ?_⟩
  intro s hs hfrac
  have hms := msNat_le_999 hfrac
  have hmin : minNat s < 60 := by
    rw [minNat]
    omega
  have hsec : secNat s < 60 := by
    rw [secNat]
    omega
  exact ⟨rfl, hmin, hsec, hms, zeroPad2_length _ (by omega), zeroPad2_length _ (by omega),
    zeroPad3_length _ (by omega)⟩

/-! ## Witnesses -/

theorem claim_exclusivity_witness :
    ∃ i, ([CallerState.finished (some 42), CallerState.finished none].get? i
          = some (.finished (some 42)))
      ∧ ∀ j st, j ≠ i →
          [CallerState.finished (some 42), CallerState.finished none].get? j = some st →
          st = .finished none := by
  refine claim_exclusivity [⟨42, 2, none, none⟩] 2 42
    ⟨[⟨42, 10, none, none⟩], [.finished (some 42), .finished none]⟩
    (by decide) (by decide) ?_ ?_
  case refine_2 =>
    intro st hst
    simp only [List.mem_cons, List.not_mem_nil, or_false] at hst
    rcases hst with h | h
    · exact ⟨some 42, h⟩
    · exact ⟨none, h⟩
  refine Relation.ReflTransGen.head
    (ClaimStep.select_found ⟨[⟨42, 2, none, none⟩], [.start, .start]⟩ 0 ⟨42, 2, none, none⟩
      (by decide) (by decide)) ?_
  refine Relation.ReflTransGen.head
    (ClaimStep.update_and_commit _ 0 42 (by decide)) ?_
  refine Relation.ReflTransGen.head
    (ClaimStep.select_none _ 1 (by decide) (by decide)) ?_
  exact Relation.ReflTransGen.refl

theorem terminal_never_reselected_witness :
    statusOf (mark_processing 8 [⟨7, 3, none, none⟩, ⟨8, 2, none, none⟩]) 7 = some 3
      ∧ ∀ row : Row,
          claimSelect (mark_processing 8 [⟨7, 3, none, none⟩, ⟨8, 2, none, none⟩]) = some row →
          row.status = 2 ∧ row.id ≠ 7 := by
  refine terminal_never_reselected [⟨7, 3, none, none⟩, ⟨8, 2, none, none⟩] 1
    ⟨[⟨7, 3, none, none⟩, ⟨8, 2, none, none⟩], [.idle]⟩
    ⟨mark_processing 8 [⟨7, 3, none, none⟩, ⟨8, 2, none, none⟩], [.working 8]⟩
    7 3 (by decide) Relation.ReflTransGen.refl (by decide) (Or.inl rfl) ?_
  refine Relation.ReflTransGen.head
    (DaemonStep.claim ⟨[⟨7, 3, none, none⟩, ⟨8, 2, none, none⟩], [.idle]⟩ 0 ⟨8, 2, none, none⟩
      (by decide) (by decide)) ?_
  exact Relation.ReflTransGen.refl

theorem commit_outcomes_exclusive_witness :
    (⟨7, 3, some "doc", none⟩ : Row).status = 3
      ∧ (⟨7, 3, some "doc", none⟩ : Row).web_vtt = some "doc"
      ∧ (⟨7, 3, some "doc", none⟩ : Row).stacktrace = none :=
  (commit_outcomes_exclusive [⟨7, 10, some "old", some "olderr"⟩] 7 "doc" "diag").1
    ⟨7, 3, some "doc", none⟩ (by decide) (by decide)

theorem claim_no_work_vs_store_failure_witness :
    get_next_target true [⟨1, 3, none, none⟩] = .ok (none, [⟨1, 3, none, none⟩])
      ∧ get_next_target false [⟨1, 3, none, none⟩] = .error .connectionFailed :=
  ⟨(claim_no_work_vs_store_failure [⟨1, 3, none, none⟩]).1 (by decide),
    (claim_no_work_vs_store_failure [⟨1, 3, none, none⟩]).2⟩

theorem worker_failure_contained_witness :
    daemon_iteration fetch42 transcribe_fail true storeErr
        [⟨5, 2, none, none⟩, ⟨6, 2, none, none⟩]
        = .ok (some 5,
            update_result 5 (-1) none (some (format_exc 5 transformErr))
              (mark_processing 5 [⟨5, 2, none, none⟩, ⟨6, 2, none, none⟩]))
      ∧ format_exc 5 transformErr ≠ "" :=
  have h := worker_failure_contained fetch42 transcribe_fail true storeErr
    [⟨5, 2, none, none⟩, ⟨6, 2, none, none⟩] ⟨5, 2, none, none⟩ transformErr 0
    (by decide) (by decide) (by decide)
  ⟨h.1, h.2.1⟩

theorem format_time_amended_witness :
    minNat (7323 / 2) < 60 ∧ secNat (7323 / 2) < 60 ∧ msNat (7323 / 2) ≤ 999 :=
  have h := format_time_amended.2.2.2 (7323 / 2) (by decide) (by decide)
  ⟨h.2.1, h.2.2.1, h.2.2.2.1⟩

theorem update_result_unconditional_witness :
    (⟨3, (-1 : Int), none, some "diag"⟩ : Row)
      ∈ update_result 3 (-1) none (some "diag") [⟨3, 3, some "done", none⟩] :=
  (update_result_unconditional [⟨3, 3, some "done", none⟩] 3 (-1) none (some "diag")).2.2.1
    ⟨3, 3, some "done", none⟩ (by decide) (by decide)

theorem success_commit_failure_converted_witness :
    daemon_iteration fetch42 transcribe_hi false storeErr [row42]
        = .ok (some 42,
            update_result 42 (-1) none (some (format_exc 5 storeErr))
              (mark_processing 42 [row42])) :=
  (success_commit_failure_converted fetch42 transcribe_hi storeErr [row42] row42 vtt_actual
    (by decide) (by decide) (by decide)).1
